import Mathlib

set_option maxRecDepth 8000

/- Shallow embedding of the milk-yield dashboard core (milking_streamlit.py):
   the farm-name anonymization mapper, the alias-directory builder, and the
   farm-scope and animal-scope yield aggregation pipelines.  SQLite REAL
   values are modelled as rationals, DATE values as proleptic-Gregorian
   calendar dates, and SQL tables as lists of rows. -/

namespace Milking

/-! SHA-256 as used by hashlib.sha256 inside the source's hash helper.
    Words are 32-bit values represented as Nat reduced modulo 2 ^ 32. -/

def M32 : Nat := 4294967296

def rotr (n x : Nat) : Nat := ((x >>> n) ||| (x <<< (32 - n))) % M32

def wnot (x : Nat) : Nat := 4294967295 ^^^ x

def shaCh (x y z : Nat) : Nat := (x &&& y) ^^^ (wnot x &&& z)

def shaMaj (x y z : Nat) : Nat := (x &&& y) ^^^ (x &&& z) ^^^ (y &&& z)

def bsig0 (x : Nat) : Nat := rotr 2 x ^^^ rotr 13 x ^^^ rotr 22 x

def bsig1 (x : Nat) : Nat := rotr 6 x ^^^ rotr 11 x ^^^ rotr 25 x

def ssig0 (x : Nat) : Nat := rotr 7 x ^^^ rotr 18 x ^^^ (x >>> 3)

def ssig1 (x : Nat) : Nat := rotr 17 x ^^^ rotr 19 x ^^^ (x >>> 10)

def shaK : List Nat :=
  [1116352408, 1899447441, 3049323471, 3921009573, 961987163, 1508970993,
   2453635748, 2870763221, 3624381080, 310598401, 607225278, 1426881987,
   1925078388, 2162078206, 2614888103, 3248222580, 3835390401, 4022224774,
   264347078, 604807628, 770255983, 1249150122, 1555081692, 1996064986,
   2554220882, 2821834349, 2952996808, 3210313671, 3336571891, 3584528711,
   113926993, 338241895, 666307205, 773529912, 1294757372, 1396182291,
   1695183700, 1986661051, 2177026350, 2456956037, 2730485921, 2820302411,
   3259730800, 3345764771, 3516065817, 3600352804, 4094571909, 275423344,
   430227734, 506948616, 659060556, 883997877, 958139571, 1322822218,
   1537002063, 1747873779, 1955562222, 2024104815, 2227730452, 2361852424,
   2428436474, 2756734187, 3204031479, 3329325298]

def shaInit : List Nat :=
  [1779033703, 3144134277, 1013904242, 2773480762, 1359893119, 2600822924,
   528734635, 1541459225]

def toWords : List Nat → List Nat
  | b0 :: b1 :: b2 :: b3 :: rest => (((b0 * 256 + b1) * 256 + b2) * 256 + b3) :: toWords rest
  | _ => []

def shaExtend : Nat → List Nat → List Nat
  | 0, w => w
  | fuel + 1, w =>
    let n := w.length
    let x := (ssig1 (w.getD (n - 2) 0) + w.getD (n - 7) 0 +
              ssig0 (w.getD (n - 15) 0) + w.getD (n - 16) 0) % M32
    shaExtend fuel (w ++ [x])

def shaRounds : List Nat → List Nat → Nat → Nat → Nat → Nat → Nat → Nat → Nat → Nat → List Nat
  | [], _, a, b, c, d, e, f, g, h => [a, b, c, d, e, f, g, h]
  | _ :: _, [], a, b, c, d, e, f, g, h => [a, b, c, d, e, f, g, h]
  | k :: ks, w :: ws, a, b, c, d, e, f, g, h =>
    let t1 := (h + bsig1 e + shaCh e f g + k + w) % M32
    let t2 := (bsig0 a + shaMaj a b c) % M32
    shaRounds ks ws ((t1 + t2) % M32) a b c ((d + t1) % M32) e f g

def shaCompress (H : List Nat) (block : List Nat) : List Nat :=
  let w := shaExtend 48 (toWords block)
  let r := shaRounds shaK w (H.getD 0 0) (H.getD 1 0) (H.getD 2 0) (H.getD 3 0)
             (H.getD 4 0) (H.getD 5 0) (H.getD 6 0) (H.getD 7 0)
  List.zipWith (fun x y => (x + y) % M32) H r

def shaBlocks : Nat → List Nat → List Nat → List Nat
  | 0, H, _ => H
  | _ + 1, H, [] => H
  | fuel + 1, H, msg => shaBlocks fuel (shaCompress H (msg.take 64)) (msg.drop 64)

def lenBytes (n : Nat) : List Nat :=
  [(n >>> 56) % 256, (n >>> 48) % 256, (n >>> 40) % 256, (n >>> 32) % 256,
   (n >>> 24) % 256, (n >>> 16) % 256, (n >>> 8) % 256, n % 256]

def shaPad (msg : List Nat) : List Nat :=
  let z := (119 - msg.length % 64) % 64
  msg ++ 128 :: (List.replicate z 0 ++ lenBytes (8 * msg.length))

def sha256Words (msg : List Nat) : List Nat :=
  let p := shaPad msg
  shaBlocks (p.length / 64 + 1) shaInit p

def hexChar (n : Nat) : Char := if n < 10 then Char.ofNat (48 + n) else Char.ofNat (87 + n)

def wordHex (w : Nat) : List Char :=
  [hexChar ((w >>> 28) % 16), hexChar ((w >>> 24) % 16), hexChar ((w >>> 20) % 16),
   hexChar ((w >>> 16) % 16), hexChar ((w >>> 12) % 16), hexChar ((w >>> 8) % 16),
   hexChar ((w >>> 4) % 16), hexChar (w % 16)]

def hexDigest (ws : List Nat) : String := (ws.flatMap wordHex).asString

/-- The UTF-8 encoding of one character (Python str.encode uses UTF-8). -/
def utf8Bytes (c : Char) : List Nat :=
  let n := c.toNat
  if n < 128 then [n]
  else if n < 2048 then [192 + n / 64, 128 + n % 64]
  else if n < 65536 then [224 + n / 4096, 128 + (n / 64) % 64, 128 + n % 64]
  else [240 + n / 262144, 128 + (n / 4096) % 64, 128 + (n / 64) % 64, 128 + n % 64]

def strBytes (s : String) : List Nat := s.data.flatMap utf8Bytes

/-- Lowercasing of a string character by character, matching Python str.lower
    on the ASCII identifiers this system handles. -/
def lowerStr (s : String) : String := ⟨s.data.map Char.toLower⟩

/-- Embedding of the source's hash helper: the SHA-256 hex digest of the
    UTF-8 bytes of the lowercased input. -/
def sha256_lower (s : String) : String := hexDigest (sha256Words (strBytes (lowerStr s)))

/-- The hard-coded protected hash table of the source: SHA-256 digests of the
    two protected lowercased farm names, mapped to their display aliases. -/
def PROTECTED_HASH_TO_ALIAS : List (String × String) :=
  [("82b7a67e7bd24e71bbaf80e360039b7fed7805b11a1b6f35c3926c9c9812c9fd", "K-farm"),
   ("687d0aa07ed9519f1a55d848b562e29044a742a7d6daa44a273735ccb4fb8591", "J-farm")]

/-- Embedding of anonymize_farm_name: look the hash of the lowercased input
    up in the protected table; on a miss return the input unchanged.  A
    Python None input is handled by anonymizeOpt below. -/
def anonymize_farm_name (actual_name : String) : String :=
  (PROTECTED_HASH_TO_ALIAS.lookup (sha256_lower actual_name)).getD actual_name

/-- The source guards its input with "actual_name or ..."; a None input
    behaves exactly like the empty string. -/
def anonymizeOpt (actual_name : Option String) : String :=
  anonymize_farm_name (actual_name.getD "")

/-! Alias directory (build_farm_alias_maps).  Python dicts are modelled as
    association lists with the dict's semantics: assignment to a present key
    overwrites it in place, assignment to an absent key appends. -/

def keysOf (d : List (String × String)) : List String := d.map (fun p => p.1)

def dictInsert (k v : String) (d : List (String × String)) : List (String × String) :=
  if (keysOf d).contains k then d.map (fun p => if p.1 == k then (k, v) else p)
  else d ++ [(k, v)]

/-- One suffixed candidate alias, the Python f-string base-i. -/
def sfx (base : String) (i : Nat) : String := base ++ "-" ++ Nat.repr i

/-- Negation of the while-loop guard: a candidate alias is acceptable when it
    is unassigned or already assigned to this same real name. -/
def aliasFree (d : List (String × String)) (actual c : String) : Bool :=
  match d.lookup c with
  | none => true
  | some v => v == actual

/-- Candidate aliases in the order the while loop tries them: the base alias
    itself, then base-2, base-3, and so on.  Only d.length + 1 suffixed
    candidates are listed; the loop provably exits within that many tries
    (allocAlias_good below), so the list is never exhausted and the getD
    default of allocAlias is never taken. -/
def candList (d : List (String × String)) (base : String) : List String :=
  base :: (List.range (d.length + 1)).map (fun t => sfx base (2 + t))

/-- The collision-resolution while loop of build_farm_alias_maps: return the
    first acceptable candidate alias. -/
def allocAlias (d : List (String × String)) (actual base : String) : String :=
  ((candList d base).find? (aliasFree d actual)).getD base

/-- One iteration of the build loop over the farm-name snapshot: compute the
    candidate alias via the anonymization mapper, resolve collisions, then
    record the alias in both direction maps. -/
def buildStep (st : List (String × String) × List (String × String)) (actual : String) :
    List (String × String) × List (String × String) :=
  let al := allocAlias st.1 actual (anonymize_farm_name actual)
  (dictInsert al actual st.1, dictInsert actual al st.2)

/-- Code-point lexicographic comparison of character lists: the string
    comparison Python sorted uses on the lowercased sort keys. -/
def charsLe : List Char → List Char → Bool
  | [], _ => true
  | _ :: _, [] => false
  | a :: as, b :: bs =>
    if a.toNat < b.toNat then true
    else if b.toNat < a.toNat then false
    else charsLe as bs

def pyStrLe (a b : String) : Bool := charsLe a.data b.data

/-- Embedding of build_farm_alias_maps over a snapshot of farm names (the
    rows of the SQL distinct-farm-name query): the case-insensitively sorted
    alias list, alias_to_internal, and internal_to_alias. -/
def build_farm_alias_maps (farms : List String) :
    List String × List (String × String) × List (String × String) :=
  let st := farms.foldl buildStep ([], [])
  (List.insertionSort (fun a b => pyStrLe (lowerStr a) (lowerStr b) = true) (keysOf st.1),
   st.1, st.2)

/-! Storage schema and the yield aggregation pipeline. -/

/-- Calendar date (proleptic Gregorian), the DATE values of the schema. -/
structure Date where
  year : Nat
  month : Nat
  day : Nat
deriving DecidableEq, Repr

/-- Day number of a calendar date (its Julian day number).  Differences of
    day numbers are the day counts Python date subtraction yields, and on
    valid dates SQL text comparison of ISO date strings agrees with
    comparison of day numbers, which is how the embedding renders the SQL
    record_date range filters and MIN/MAX aggregates. -/
def Date.ord (d : Date) : Nat :=
  let a := (14 - d.month) / 12
  let y := d.year + 4800 - a
  let m := d.month + 12 * a - 3
  d.day + (153 * m + 2) / 5 + 365 * y + y / 4 - y / 100 + y / 400 - 32045

/-- The strftime YYYY-MM bucket of a date, rendered order-isomorphically as
    year * 100 + month. -/
def monthKey (d : Date) : Nat := d.year * 100 + d.month

/-- One row of the animals table. -/
structure Animal where
  ear_tag : String
  birth_date : Option Date
  farm_name : String
deriving DecidableEq, Repr

/-- One row of the milk_yield table.  record_year is its own stored column
    and is queried independently of record_date. -/
structure MilkRow where
  ear_tag : String
  record_date : Date
  record_year : Int
  yield_value : Rat
deriving DecidableEq, Repr

structure DB where
  animals : List Animal
  milk_yield : List MilkRow
deriving DecidableEq, Repr

/-- The SQL join of milk_yield with animals restricted to one farm: each milk
    row appears once per matching animal row (exactly once under the ear-tag
    primary-key invariant). -/
def farmJoin (db : DB) (farm : String) : List MilkRow :=
  db.milk_yield.flatMap (fun m =>
    (db.animals.filter (fun a => a.ear_tag == m.ear_tag && a.farm_name == farm)).map (fun _ => m))

/-- Rows of one animal (WHERE ear_tag matches). -/
def animalRows (db : DB) (tag : String) : List MilkRow :=
  db.milk_yield.filter (fun m => m.ear_tag == tag)

def sumYield (rows : List MilkRow) : Rat := (rows.map (fun r => r.yield_value)).sum

/-- COUNT(DISTINCT record_date). -/
def distinctDates (rows : List MilkRow) : Nat := ((rows.map (fun r => r.record_date)).dedup).length

/-- COUNT(DISTINCT ear_tag). -/
def distinctTags (rows : List MilkRow) : Nat := ((rows.map (fun r => r.ear_tag)).dedup).length

/-- Rounding to the nearest integer with ties to even: the rounding of
    pandas Series.round (numpy) and of the Python round builtin. -/
def roundHE (q : Rat) : Int :=
  let f := Rat.floor q
  let r := q - (f : Rat)
  if r < 1 / 2 then f else if 1 / 2 < r then f + 1 else if f % 2 = 0 then f else f + 1

/-- Rounding to one decimal with ties to even (pandas .round(1)). -/
def roundHE1 (q : Rat) : Rat := (roundHE (q * 10) : Rat) / 10

/-- SQLite ROUND(x, 1), which rounds ties away from zero. -/
def sqliteRound1 (q : Rat) : Rat :=
  if q < 0 then -((Rat.floor (-q * 10 + 1 / 2) : Rat) / 10)
  else (Rat.floor (q * 10 + 1 / 2) : Rat) / 10

structure FarmYearRow where
  year : Int
  liters : Rat
  days : Nat
  cows : Nat
  avg_daily : Rat
deriving DecidableEq, Repr

/-- GROUP BY record_year ORDER BY record_year for the farm scope, with the
    avg_daily column the source adds when the frame is non-empty (mapping
    over the empty key list likewise yields the empty frame). -/
def farmYearRows (rows : List MilkRow) : List FarmYearRow :=
  (List.insertionSort (fun a b => a ≤ b) ((rows.map (fun r => r.record_year)).dedup)).map
    (fun y =>
      let g := rows.filter (fun r => r.record_year == y)
      let liters := sumYield g
      let days := distinctDates g
      { year := y, liters := liters, days := days, cows := distinctTags g,
        avg_daily := roundHE1 (liters / (days : Rat)) })

structure AnimalYearRow where
  year : Int
  liters : Rat
  days : Nat
  avg_daily : Rat
deriving DecidableEq, Repr

/-- The animal-scope year breakdown: same construction without the
    distinct-animal column. -/
def animalYearRows (rows : List MilkRow) : List AnimalYearRow :=
  (List.insertionSort (fun a b => a ≤ b) ((rows.map (fun r => r.record_year)).dedup)).map
    (fun y =>
      let g := rows.filter (fun r => r.record_year == y)
      let liters := sumYield g
      let days := distinctDates g
      { year := y, liters := liters, days := days,
        avg_daily := roundHE1 (liters / (days : Rat)) })

structure TrendRow where
  month : Nat
  liters : Int
  sessions : Nat
deriving DecidableEq, Repr

/-- The window filter record_date >= since of the trailing-twelve-month
    queries, where since is the day number 365 days before today. -/
def inWindow (since : Nat) (r : MilkRow) : Bool := decide (since ≤ r.record_date.ord)

/-- Months holding at least one of the rows, ascending (GROUP BY month
    ORDER BY month). -/
def monthsOf (rows : List MilkRow) : List Nat :=
  List.insertionSort (fun a b => a ≤ b) ((rows.map (fun r => monthKey r.record_date)).dedup)

/-- The liters query of the trend: month key and summed liters per month. -/
def litersSeries (rows : List MilkRow) : List (Nat × Rat) :=
  (monthsOf rows).map (fun k => (k, sumYield (rows.filter (fun r => monthKey r.record_date == k))))

/-- Farm-scope sessions query: COUNT(DISTINCT ear_tag) per month. -/
def farmSessionSeries (rows : List MilkRow) : List (Nat × Nat) :=
  (monthsOf rows).map
    (fun k => (k, distinctTags (rows.filter (fun r => monthKey r.record_date == k))))

/-- Animal-scope sessions query: COUNT of rows per month. -/
def animalSessionSeries (rows : List MilkRow) : List (Nat × Nat) :=
  (monthsOf rows).map (fun k => (k, (rows.filter (fun r => monthKey r.record_date == k)).length))

/-- The source rounds the liters column to integers only when the frame is
    non-empty (on the empty frame the guard leaves it untouched). -/
def roundLiters (ls : List (Nat × Rat)) : List (Nat × Int) :=
  if ls.isEmpty then [] else ls.map (fun p => (p.1, roundHE p.2))

/-- The merge of the sessions frame into the liters frame: pandas merge on
    the month key with how left, then fillna 0 and an integer cast of the
    sessions column; skipped entirely (leaving the empty frame) when the
    liters frame is empty. -/
def mergeTrend (ls : List (Nat × Int)) (ss : List (Nat × Nat)) : List TrendRow :=
  if ls.isEmpty then []
  else ls.map (fun p => { month := p.1, liters := p.2, sessions := (ss.lookup p.1).getD 0 })

structure FarmSummary where
  total_liters : Rat
  lactation_days : Nat
  df_year : List FarmYearRow
  df_12mo : List TrendRow
deriving DecidableEq, Repr

/-- Embedding of farm_yield_summary.  today is the day number at computation
    time; the window bound is 365 days before it, inclusive. -/
def farm_yield_summary (db : DB) (today : Nat) (farm : String) : FarmSummary :=
  let rows := farmJoin db farm
  let win := rows.filter (inWindow (today - 365))
  { total_liters := sumYield rows
    lactation_days := distinctDates rows
    df_year := farmYearRows rows
    df_12mo := mergeTrend (roundLiters (litersSeries win)) (farmSessionSeries win) }

structure AnimalStats where
  avg_daily : Rat
  max_yield : Rat
  min_yield : Rat
deriving DecidableEq, Repr

structure AnimalSummary where
  total_liters : Rat
  lactation_days : Nat
  duration_days : Nat
  df_year : List AnimalYearRow
  df_12mo : List TrendRow
  stats : Option AnimalStats
deriving DecidableEq, Repr

/-- duration: the inclusive span between the MIN and MAX record dates; when
    the aggregate row is NULL (no records) the source's date parse raises
    and it falls back to the lactation-day count. -/
def durationDays (rows : List MilkRow) (days : Nat) : Nat :=
  let ds := rows.map (fun r => r.record_date.ord)
  match ds.min?, ds.max? with
  | some mn, some mx => mx - mn + 1
  | _, _ => days

/-- The per-record stats query: ROUND(AVG(yield_value), 1), MAX, MIN; all
    NULL on an empty scope. -/
def animalStats (rows : List MilkRow) : Option AnimalStats :=
  if rows.isEmpty then none
  else
    let vs := rows.map (fun r => r.yield_value)
    some { avg_daily := sqliteRound1 (sumYield rows / (rows.length : Rat)),
           max_yield := (vs.max?).getD 0, min_yield := (vs.min?).getD 0 }

/-- Embedding of animal_yield_summary. -/
def animal_yield_summary (db : DB) (today : Nat) (tag : String) : AnimalSummary :=
  let rows := animalRows db tag
  let days := distinctDates rows
  let win := rows.filter (inWindow (today - 365))
  { total_liters := sumYield rows
    lactation_days := days
    duration_days := durationDays rows days
    df_year := animalYearRows rows
    df_12mo := mergeTrend (roundLiters (litersSeries win)) (animalSessionSeries win)
    stats := animalStats rows }

/-- The db with the milk_yield table restricted to the trailing window, used
    to state that out-of-window records contribute nothing to the trend. -/
def pruneWindow (db : DB) (today : Nat) : DB :=
  { animals := db.animals, milk_yield := db.milk_yield.filter (inWindow (today - 365)) }

/-! Decimal numerals.  The collision loop of the directory builder needs the
    suffixed candidate aliases base-2, base-3, ... to be pairwise distinct,
    which reduces to injectivity of the decimal rendering of Nat. -/

def natDigits (n : Nat) : List Char :=
  if _h : n < 10 then [Nat.digitChar n]
  else natDigits (n / 10) ++ [Nat.digitChar (n % 10)]
termination_by n
decreasing_by exact Nat.div_lt_self (by omega) (by omega)

theorem natDigits_small {n : Nat} (h : n < 10) : natDigits n = [Nat.digitChar n] := by
  rw [natDigits, dif_pos h]

theorem natDigits_big {n : Nat} (h : ¬ n < 10) :
    natDigits n = natDigits (n / 10) ++ [Nat.digitChar (n % 10)] := by
  conv_lhs => rw [natDigits]
  rw [dif_neg h]

theorem natDigits_ne_nil (n : Nat) : natDigits n ≠ [] := by
  by_cases h : n < 10
  · rw [natDigits_small h]; simp
  · rw [natDigits_big h]; simp

theorem toDigitsCore_eq (fuel : Nat) : ∀ (n : Nat) (acc : List Char), n < fuel →
    Nat.toDigitsCore 10 fuel n acc = natDigits n ++ acc := by
  induction fuel with
  | zero => omega
  | succ f ih =>
    intro n acc h
    simp only [Nat.toDigitsCore]
    by_cases h10 : n / 10 = 0
    · have hn : n < 10 := by
        by_contra hc
        have : 1 ≤ n / 10 := (Nat.one_le_div_iff (by omega)).mpr (by omega)
        omega
      rw [if_pos h10, natDigits_small hn, Nat.mod_eq_of_lt hn]
      rfl
    · have hn : ¬ n < 10 := by
        intro hc
        exact h10 (Nat.div_eq_of_lt hc)
      have hlt : n / 10 < f := by
        have h1 : n / 10 < n := Nat.div_lt_self (by omega) (by omega)
        omega
      rw [if_neg h10, ih (n / 10) _ hlt, natDigits_big hn, List.append_assoc]
      rfl

theorem toDigits_eq (n : Nat) : Nat.toDigits 10 n = natDigits n := by
  rw [Nat.toDigits, toDigitsCore_eq (n + 1) n [] (Nat.lt_succ_self n), List.append_nil]

theorem digitChar_inj : ∀ a, a < 10 → ∀ b, b < 10 →
    Nat.digitChar a = Nat.digitChar b → a = b := by decide

theorem natDigits_inj : ∀ m n : Nat, natDigits m = natDigits n → m = n := by
  intro m
  induction m using Nat.strong_induction_on with
  | _ m ih =>
    intro n h
    by_cases hm : m < 10 <;> by_cases hn : n < 10
    · rw [natDigits_small hm, natDigits_small hn] at h
      exact digitChar_inj m hm n hn (List.cons.inj h).1
    · exfalso
      rw [natDigits_small hm, natDigits_big hn] at h
      have hl := congrArg List.length h
      simp only [List.length_cons, List.length_nil, List.length_append] at hl
      have := natDigits_ne_nil (n / 10)
      cases h0 : natDigits (n / 10) with
      | nil => exact this h0
      | cons a l => rw [h0] at hl; simp at hl
    · exfalso
      rw [natDigits_big hm, natDigits_small hn] at h
      have hl := congrArg List.length h
      simp only [List.length_cons, List.length_nil, List.length_append] at hl
      have := natDigits_ne_nil (m / 10)
      cases h0 : natDigits (m / 10) with
      | nil => exact this h0
      | cons a l => rw [h0] at hl; simp at hl
    · rw [natDigits_big hm, natDigits_big hn] at h
      have h2 := congrArg List.reverse h
      simp only [List.reverse_append, List.reverse_cons, List.reverse_nil, List.nil_append,
        List.singleton_append] at h2
      have hmod : m % 10 = n % 10 :=
        digitChar_inj (m % 10) (Nat.mod_lt m (by omega)) (n % 10) (Nat.mod_lt n (by omega))
          (List.cons.inj h2).1
      have htl : natDigits (m / 10) = natDigits (n / 10) :=
        List.reverse_injective (List.cons.inj h2).2
      have hdiv : m / 10 = n / 10 :=
        ih (m / 10) (Nat.div_lt_self (by omega) (by omega)) (n / 10) htl
      calc m = 10 * (m / 10) + m % 10 := (Nat.div_add_mod m 10).symm
        _ = 10 * (n / 10) + n % 10 := by rw [hdiv, hmod]
        _ = n := Nat.div_add_mod n 10

theorem repr_inj (m n : Nat) (h : Nat.repr m = Nat.repr n) : m = n := by
  rw [Nat.repr, Nat.repr] at h
  have h2 : natDigits m = natDigits n := by
    have := congrArg String.data h
    rwa [toDigits_eq, toDigits_eq] at this
  exact natDigits_inj m n h2

theorem repr_data_ne_nil (n : Nat) : (Nat.repr n).data ≠ [] := by
  rw [Nat.repr]
  show (Nat.toDigits 10 n) ≠ []
  rw [toDigits_eq]
  exact natDigits_ne_nil n

theorem sfx_inj {base : String} {i j : Nat} (h : sfx base i = sfx base j) : i = j := by
  have h2 := congrArg String.data h
  simp only [sfx, String.data_append, List.append_assoc] at h2
  have h3 := List.append_cancel_left (List.append_cancel_left h2)
  exact repr_inj i j (String.ext h3)

theorem sfx_ne_base (base : String) (i : Nat) : sfx base i ≠ base := by
  intro h
  have h2 := congrArg (fun s : String => s.data.length) h
  simp only [sfx, String.data_append, List.length_append] at h2
  have h3 : ("-" : String).data.length = 1 := rfl
  have h4 : (Nat.repr i).data.length ≠ 0 := by
    intro h0
    exact repr_data_ne_nil i (List.length_eq_zero.mp h0)
  omega

/-! Association-list lookup facts for the directory maps. -/

theorem lookup_cons {α β : Type} [BEq α] (a k : α) (v : β) (l : List (α × β)) :
    ((k, v) :: l).lookup a = if a == k then some v else l.lookup a := by
  cases h : a == k <;> simp [List.lookup, h]

theorem lookup_eq_none_iff {α β : Type} [BEq α] [LawfulBEq α] (l : List (α × β)) (a : α) :
    l.lookup a = none ↔ a ∉ l.map (fun p => p.1) := by
  induction l with
  | nil => simp [List.lookup]
  | cons p l ih =>
    obtain ⟨k, v⟩ := p
    rw [lookup_cons]
    by_cases h : a = k
    · subst h; simp
    · simp only [List.map_cons, List.mem_cons]
      rw [if_neg (by simpa using h), ih]
      simp [h]

theorem lookup_mem {α β : Type} [BEq α] [LawfulBEq α] {l : List (α × β)} {a : α} {b : β}
    (h : l.lookup a = some b) : (a, b) ∈ l := by
  induction l with
  | nil => simp [List.lookup] at h
  | cons p l ih =>
    obtain ⟨k, v⟩ := p
    rw [lookup_cons] at h
    by_cases hk : a == k
    · rw [if_pos hk] at h
      have : a = k := by simpa using hk
      subst this
      simp only [Option.some.injEq] at h
      subst h
      exact List.mem_cons_self _ _
    · rw [if_neg hk] at h
      exact List.mem_cons_of_mem _ (ih h)

theorem lookup_of_mem_nodup {α β : Type} [BEq α] [LawfulBEq α] {l : List (α × β)} {a : α} {b : β}
    (hnd : (l.map (fun p => p.1)).Nodup) (h : (a, b) ∈ l) : l.lookup a = some b := by
  induction l with
  | nil => simp at h
  | cons p l ih =>
    obtain ⟨k, v⟩ := p
    simp only [List.map_cons, List.nodup_cons] at hnd
    rw [lookup_cons]
    rcases List.mem_cons.mp h with h1 | h1
    · injection h1 with h3 h4
      subst h3; subst h4
      simp
    · have hak : a ≠ k := by
        intro hk
        subst hk
        exact hnd.1 (List.mem_map.mpr ⟨(a, b), h1, rfl⟩)
      rw [if_neg (by simpa using hak)]
      exact ih hnd.2 h1

/-! Correctness of the collision-resolution loop. -/

theorem aliasFree_iff (d : List (String × String)) (actual c : String) :
    aliasFree d actual c = true ↔ d.lookup c = none ∨ d.lookup c = some actual := by
  cases h : d.lookup c with
  | none => simp [aliasFree, h]
  | some v => simp [aliasFree, h, beq_iff_eq]

theorem candList_nodup (d : List (String × String)) (base : String) :
    (candList d base).Nodup := by
  rw [candList]
  refine List.nodup_cons.mpr ⟨?_, ?_⟩
  · intro hmem
    obtain ⟨t, _, ht⟩ := List.mem_map.mp hmem
    exact sfx_ne_base base (2 + t) ht
  · refine (List.nodup_range _).map ?_
    intro i j hij
    have := sfx_inj hij
    omega

theorem allocAlias_good (d : List (String × String)) (actual base : String) :
    aliasFree d actual (allocAlias d actual base) = true := by
  rw [allocAlias]
  cases h : (candList d base).find? (aliasFree d actual) with
  | some c =>
    simpa using List.find?_some h
  | none =>
    exfalso
    have hall := List.find?_eq_none.mp h
    have hsub : candList d base ⊆ keysOf d := by
      intro c hc
      have hfail := hall c hc
      rw [aliasFree] at hfail
      cases hl : d.lookup c with
      | none => rw [hl] at hfail; simp at hfail
      | some v =>
        have : (c, v) ∈ d := lookup_mem hl
        exact List.mem_map.mpr ⟨(c, v), this, rfl⟩
    have hle : (candList d base).length ≤ (keysOf d).length :=
      ((candList_nodup d base).subperm hsub).length_le
    have h1 : (candList d base).length = d.length + 2 := by
      simp [candList]
    have h2 : (keysOf d).length = d.length := by
      simp [keysOf]
    omega

/-! The build-loop invariant: the reverse map mirrors the forward map pair
    by pair, the forward map's values are exactly the processed farm names,
    and its keys (the aliases) are pairwise distinct. -/

def GoodState (done : List String) (st : List (String × String) × List (String × String)) : Prop :=
  st.2 = st.1.map (fun p => (p.2, p.1)) ∧ st.1.map (fun p => p.2) = done ∧ (keysOf st.1).Nodup

theorem dictInsert_of_not_mem {k : String} (v : String) {d : List (String × String)}
    (h : k ∉ keysOf d) : dictInsert k v d = d ++ [(k, v)] := by
  rw [dictInsert, if_neg]
  simpa using h

theorem buildStep_good {done : List String} {st} {actual : String}
    (hg : GoodState done st) (hnew : actual ∉ done) :
    GoodState (done ++ [actual]) (buildStep st actual) := by
  obtain ⟨hswap, hvals, hnd⟩ := hg
  have hfree := allocAlias_good st.1 actual (anonymize_farm_name actual)
  rw [aliasFree_iff] at hfree
  set al := allocAlias st.1 actual (anonymize_farm_name actual) with hal
  have hnone : st.1.lookup al = none := by
    rcases hfree with h | h
    · exact h
    · exfalso
      have hmem : (al, actual) ∈ st.1 := lookup_mem h
      have h2 : actual ∈ st.1.map (fun p => p.2) := List.mem_map.mpr ⟨(al, actual), hmem, rfl⟩
      rw [hvals] at h2
      exact hnew h2
  have halk : al ∉ keysOf st.1 := (lookup_eq_none_iff st.1 al).mp hnone
  have hkeys2 : keysOf st.2 = done := by
    rw [hswap, keysOf, List.map_map]
    exact hvals
  have hact : actual ∉ keysOf st.2 := by
    rw [hkeys2]; exact hnew
  refine ⟨?_, ?_, ?_⟩
  · show dictInsert actual al st.2 = (dictInsert al actual st.1).map (fun p => (p.2, p.1))
    rw [dictInsert_of_not_mem al hact, dictInsert_of_not_mem actual halk, hswap, List.map_append]
    rfl
  · show (dictInsert al actual st.1).map (fun p => p.2) = done ++ [actual]
    rw [dictInsert_of_not_mem actual halk, List.map_append, hvals]
    rfl
  · show (keysOf (dictInsert al actual st.1)).Nodup
    rw [dictInsert_of_not_mem actual halk, keysOf, List.map_append]
    refine List.Nodup.append hnd (List.nodup_singleton al) ?_
    intro x hx hx2
    simp only [List.map_cons, List.map_nil, List.mem_singleton] at hx2
    subst hx2
    exact halk hx

theorem foldl_build_good : ∀ (farms done : List String) (st),
    GoodState done st → (done ++ farms).Nodup →
    GoodState (done ++ farms) (farms.foldl buildStep st)
  | [], done, st, hg, _ => by simpa using hg
  | f :: fs, done, st, hg, hnd => by
    have hnew : f ∉ done := by
      rw [List.nodup_append] at hnd
      exact fun hf => (hnd.2.2 hf) (List.mem_cons_self f fs)
    have hg2 := buildStep_good hg hnew
    have hnd2 : ((done ++ [f]) ++ fs).Nodup := by simpa [List.append_assoc] using hnd
    have h3 := foldl_build_good fs (done ++ [f]) (buildStep st f) hg2 hnd2
    simpa [List.append_assoc] using h3

theorem build_state_good (farms : List String) (hnd : farms.Nodup) :
    GoodState farms (farms.foldl buildStep ([], [])) := by
  have h0 : GoodState [] (([], []) : List (String × String) × List (String × String)) :=
    ⟨rfl, rfl, List.nodup_nil⟩
  have h1 := foldl_build_good farms [] ([], []) h0 (by simpa using hnd)
  simpa using h1

theorem build_snd_eq (farms : List String) :
    (build_farm_alias_maps farms).2 = farms.foldl buildStep ([], []) := rfl

theorem build_i2a_keys_nodup {farms : List String} (hnd : farms.Nodup) :
    (keysOf (farms.foldl buildStep ([], [])).2).Nodup := by
  obtain ⟨hswap, hvals, _⟩ := build_state_good farms hnd
  have : keysOf (farms.foldl buildStep ([], [])).2 = farms := by
    rw [hswap, keysOf, List.map_map]
    exact hvals
  rw [this]
  exact hnd

theorem build_forward {farms : List String} (hnd : farms.Nodup) {al ac : String}
    (h : (farms.foldl buildStep ([], [])).1.lookup al = some ac) :
    (farms.foldl buildStep ([], [])).2.lookup ac = some al := by
  obtain ⟨hswap, hvals, hknd⟩ := build_state_good farms hnd
  have hmem : (al, ac) ∈ (farms.foldl buildStep ([], [])).1 := lookup_mem h
  have hmem2 : (ac, al) ∈ (farms.foldl buildStep ([], [])).2 := by
    rw [hswap]
    exact List.mem_map.mpr ⟨(al, ac), hmem, rfl⟩
  exact lookup_of_mem_nodup (build_i2a_keys_nodup hnd) hmem2

theorem build_backward {farms : List String} (hnd : farms.Nodup) {ac al : String}
    (h : (farms.foldl buildStep ([], [])).2.lookup ac = some al) :
    (farms.foldl buildStep ([], [])).1.lookup al = some ac := by
  obtain ⟨hswap, hvals, hknd⟩ := build_state_good farms hnd
  have hmem2 : (ac, al) ∈ (farms.foldl buildStep ([], [])).2 := lookup_mem h
  rw [hswap] at hmem2
  obtain ⟨p, hp, hpe⟩ := List.mem_map.mp hmem2
  have hp1 : p = (al, ac) := by
    obtain ⟨x, y⟩ := p
    injection hpe with h1 h2
    simp only at h1 h2
    subst h1; subst h2
    rfl
  subst hp1
  exact lookup_of_mem_nodup hknd hp

theorem build_total {farms : List String} (hnd : farms.Nodup) {f : String} (hf : f ∈ farms) :
    ∃ al, (farms.foldl buildStep ([], [])).2.lookup f = some al := by
  obtain ⟨hswap, hvals, hknd⟩ := build_state_good farms hnd
  rw [← hvals] at hf
  obtain ⟨p, hp, hpe⟩ := List.mem_map.mp hf
  refine ⟨p.1, ?_⟩
  have hmem2 : (f, p.1) ∈ (farms.foldl buildStep ([], [])).2 := by
    rw [hswap]
    refine List.mem_map.mpr ⟨p, hp, ?_⟩
    rw [hpe]
  exact lookup_of_mem_nodup (build_i2a_keys_nodup hnd) hmem2

theorem build_alias_inj {farms : List String} (hnd : farms.Nodup) {f1 f2 al : String}
    (h1 : (farms.foldl buildStep ([], [])).2.lookup f1 = some al)
    (h2 : (farms.foldl buildStep ([], [])).2.lookup f2 = some al) : f1 = f2 := by
  have hb1 := build_backward hnd h1
  have hb2 := build_backward hnd h2
  rw [hb1] at hb2
  injection hb2

/-- C1: for every snapshot of distinct non-empty farm names,
    build_farm_alias_maps returns alias_to_internal and internal_to_alias
    that are exact inverses of each other: a lookup in either map is
    mirrored by the reverse lookup in the other, every real farm name of
    the snapshot has an alias, and no two distinct real names share an
    alias. -/
theorem c1_alias_maps_bijection (farms : List String) (hnd : farms.Nodup)
    (_hne : ∀ f ∈ farms, f ≠ "") :
    (∀ al ac, (build_farm_alias_maps farms).2.1.lookup al = some ac →
       (build_farm_alias_maps farms).2.2.lookup ac = some al) ∧
    (∀ ac al, (build_farm_alias_maps farms).2.2.lookup ac = some al →
       (build_farm_alias_maps farms).2.1.lookup al = some ac) ∧
    (∀ f ∈ farms, ∃ al, (build_farm_alias_maps farms).2.2.lookup f = some al) ∧
    (∀ f1 f2 al, (build_farm_alias_maps farms).2.2.lookup f1 = some al →
       (build_farm_alias_maps farms).2.2.lookup f2 = some al → f1 = f2) := by
  rw [build_snd_eq]
  exact ⟨fun al ac h => build_forward hnd h,
         fun ac al h => build_backward hnd h,
         fun f hf => build_total hnd hf,
         fun f1 f2 al h1 h2 => build_alias_inj hnd h1 h2⟩

/-- Witness for c1_alias_maps_bijection at a concrete two-farm snapshot. -/
theorem c1_witness :
    ((["alpha", "beta"] : List String).Nodup ∧ (∀ f ∈ ["alpha", "beta"], f ≠ "")) ∧
    (∀ f ∈ ["alpha", "beta"], ∃ al,
       (build_farm_alias_maps ["alpha", "beta"]).2.2.lookup f = some al) :=
  ⟨⟨by decide, by decide⟩,
   (c1_alias_maps_bijection ["alpha", "beta"] (by decide) (by decide)).2.2.1⟩

/-- C2: resolve_alias returns the configured protected alias exactly when the
    SHA-256 hash of the lowercased input is in the hard-coded table, and the
    input unchanged for every other string; the protected names resolve in
    any casing (magpantay to K-farm, samabaco to J-farm), the empty and None
    inputs yield the empty string, and the function is total by
    construction. -/
theorem c2_resolve_alias :
    (∀ s al, PROTECTED_HASH_TO_ALIAS.lookup (sha256_lower s) = some al →
       anonymize_farm_name s = al) ∧
    (∀ s, PROTECTED_HASH_TO_ALIAS.lookup (sha256_lower s) = none →
       anonymize_farm_name s = s) ∧
    anonymize_farm_name "magpantay" = "K-farm" ∧
    anonymize_farm_name "Magpantay" = "K-farm" ∧
    anonymize_farm_name "MAGPANTAY" = "K-farm" ∧
    anonymize_farm_name "samabaco" = "J-farm" ∧
    anonymize_farm_name "SaMaBaCo" = "J-farm" ∧
    anonymize_farm_name "" = "" ∧
    anonymizeOpt none = "" := by
  refine ⟨?_, ?_, by decide, by decide, by decide, by decide, by decide, by decide, by decide⟩
  · intro s al h
    rw [anonymize_farm_name, h]
    rfl
  · intro s h
    rw [anonymize_farm_name, h]
    rfl

/-- Witness for c2_resolve_alias: the protected branch taken at a concrete
    input. -/
theorem c2_witness :
    PROTECTED_HASH_TO_ALIAS.lookup (sha256_lower "magpantay") = some "K-farm" ∧
    anonymize_farm_name "magpantay" = "K-farm" :=
  ⟨by decide, c2_resolve_alias.1 "magpantay" "K-farm" (by decide)⟩

/-- C10: the anonymization mapper is idempotent: the protected aliases are
    not themselves keys of the protected hash table, and every
    non-protected string passes through unchanged. -/
theorem c10_anonymize_idempotent (s : String) :
    anonymize_farm_name (anonymize_farm_name s) = anonymize_farm_name s := by
  cases h : PROTECTED_HASH_TO_ALIAS.lookup (sha256_lower s) with
  | none =>
    have hs : anonymize_farm_name s = s := by rw [anonymize_farm_name, h]; rfl
    rw [hs]
    exact hs
  | some al =>
    have hs : anonymize_farm_name s = al := by rw [anonymize_farm_name, h]; rfl
    have hal : al = "K-farm" ∨ al = "J-farm" := by
      rw [PROTECTED_HASH_TO_ALIAS, lookup_cons] at h
      split at h
      · exact Or.inl (Option.some.inj h).symm
      · rw [lookup_cons] at h
        split at h
        · exact Or.inr (Option.some.inj h).symm
        · simp [List.lookup] at h
    rw [hs]
    rcases hal with rfl | rfl
    · decide
    · decide

/-! The collision loop picks the first free suffixed candidate: a first-match
    characterization of find? over the suffixed candidate tail. -/

theorem find_sfx_first (d : List (String × String)) (actual base : String) :
    ∀ (n start : Nat) (c : String),
    ((List.range n).map (fun t => sfx base (start + t))).find? (aliasFree d actual) = some c →
    ∃ j, start ≤ j ∧ c = sfx base j ∧ aliasFree d actual (sfx base j) = true ∧
      ∀ i, start ≤ i → i < j → aliasFree d actual (sfx base i) = false := by
  intro n
  induction n with
  | zero => intro start c h; simp at h
  | succ m ih =>
    intro start c h
    rw [List.range_succ_eq_map, List.map_cons, List.map_map] at h
    have hmap : (List.range m).map ((fun t => sfx base (start + t)) ∘ Nat.succ) =
        (List.range m).map (fun t => sfx base (start + 1 + t)) := by
      apply List.map_congr_left
      intro t _
      simp only [Function.comp_apply]
      congr 1
      omega
    rw [hmap] at h
    simp only [Nat.add_zero] at h
    cases hp : aliasFree d actual (sfx base start) with
    | true =>
      rw [List.find?_cons_of_pos _ hp] at h
      refine ⟨start, Nat.le_refl start, (Option.some.inj h).symm, hp, ?_⟩
      intro i h1 h2; omega
    | false =>
      rw [List.find?_cons_of_neg _ (by simp [hp])] at h
      obtain ⟨j, hj1, hj2, hj3, hj4⟩ := ih (start + 1) c h
      refine ⟨j, by omega, hj2, hj3, ?_⟩
      intro i hi1 hi2
      by_cases hie : i = start
      · subst hie
        exact hp
      · exact hj4 i (by omega) hi2

/-- C3: when the candidate alias of a real name is already assigned to a
    different real name, the chosen alias is the first free numeric-suffixed
    candidate base-j with j at least 2 (all smaller suffixes being taken);
    when the candidate alias is already assigned to the same real name it is
    reused without suffixing; the concrete two-name collision snapshot gets
    the suffixed alias deterministically; and the built directory remains a
    bijection (no two distinct real names share an alias). -/
theorem c3_collision_suffix :
    (∀ (d : List (String × String)) (actual base : String),
       d.lookup base = some actual → allocAlias d actual base = base) ∧
    (∀ (d : List (String × String)) (actual base v : String),
       d.lookup base = some v → v ≠ actual →
       ∃ j, 2 ≤ j ∧ allocAlias d actual base = sfx base j ∧
         aliasFree d actual (sfx base j) = true ∧
         ∀ i, 2 ≤ i → i < j → aliasFree d actual (sfx base i) = false) ∧
    build_farm_alias_maps ["Magpantay", "magpantay"] =
      (["K-farm", "K-farm-2"],
       [("K-farm", "Magpantay"), ("K-farm-2", "magpantay")],
       [("Magpantay", "K-farm"), ("magpantay", "K-farm-2")]) ∧
    (∀ (farms : List String), farms.Nodup →
       ∀ f1 f2 al, (build_farm_alias_maps farms).2.2.lookup f1 = some al →
         (build_farm_alias_maps farms).2.2.lookup f2 = some al → f1 = f2) := by
  refine ⟨?_, ?_, by decide, ?_⟩
  · intro d actual base h
    have hfree : aliasFree d actual base = true := by
      rw [aliasFree_iff]
      exact Or.inr h
    rw [allocAlias, candList, List.find?_cons_of_pos _ hfree]
    rfl
  · intro d actual base v hv hne
    have hfree : aliasFree d actual base = false := by
      simp only [aliasFree, hv]
      exact beq_eq_false_iff_ne.mpr hne
    have hgood := allocAlias_good d actual base
    cases hfind : (candList d base).find? (aliasFree d actual) with
    | none =>
      exfalso
      rw [allocAlias, hfind] at hgood
      simp only [Option.getD_none] at hgood
      rw [hgood] at hfree
      cases hfree
    | some c =>
      have hfind2 := hfind
      rw [candList, List.find?_cons_of_neg _ (by simp [hfree])] at hfind2
      obtain ⟨j, hj1, hj2, hj3, hj4⟩ :=
        find_sfx_first d actual base (d.length + 1) 2 c hfind2
      refine ⟨j, hj1, ?_, hj3, hj4⟩
      rw [allocAlias, hfind, Option.getD_some, hj2]
  · intro farms hnd f1 f2 al h1 h2
    rw [build_snd_eq] at h1 h2
    exact build_alias_inj hnd h1 h2

/-- Witness for c3_collision_suffix: reuse without suffixing, and a concrete
    suffixed collision, at an explicit dictionary state. -/
theorem c3_witness :
    ([("K-farm", "Magpantay")].lookup "K-farm" = some "Magpantay" ∧
     allocAlias [("K-farm", "Magpantay")] "Magpantay" "K-farm" = "K-farm") ∧
    (("Magpantay" : String) ≠ "magpantay" ∧
     ∃ j, 2 ≤ j ∧
       allocAlias [("K-farm", "Magpantay")] "magpantay" "K-farm" = sfx "K-farm" j ∧
       aliasFree [("K-farm", "Magpantay")] "magpantay" (sfx "K-farm" j) = true ∧
       ∀ i, 2 ≤ i → i < j →
         aliasFree [("K-farm", "Magpantay")] "magpantay" (sfx "K-farm" i) = false) :=
  ⟨⟨by decide, c3_collision_suffix.1 _ _ _ (by decide)⟩,
   ⟨by decide, c3_collision_suffix.2.1 _ _ _ "Magpantay" (by decide) (by decide)⟩⟩

/-! Concrete storage snapshots used by the example-based claims. -/

/-- The farm of the spec's two-animal example: one record each on
    2024-01-15, of 10.0 and 12.5 liters. -/
def dbTwoCows : DB :=
  { animals := [⟨"A1", none, "F"⟩, ⟨"A2", none, "F"⟩],
    milk_yield := [⟨"A1", ⟨2024, 1, 15⟩, 2024, 10⟩, ⟨"A2", ⟨2024, 1, 15⟩, 2024, 25 / 2⟩] }

/-- The animal of the spec's two-record example: 5.0 liters on 2023-06-01
    and 7.0 liters on 2023-06-03. -/
def dbOneCow : DB :=
  { animals := [⟨"T", some ⟨2020, 1, 1⟩, "F"⟩],
    milk_yield := [⟨"T", ⟨2023, 6, 1⟩, 2023, 5⟩, ⟨"T", ⟨2023, 6, 3⟩, 2023, 7⟩] }

/-- The example farm is entirely inside the trailing window anchored at
    2024-06-01. -/
theorem dbTwoCows_win :
    (farmJoin dbTwoCows "F").filter (inWindow (Date.ord ⟨2024, 6, 1⟩ - 365)) =
      farmJoin dbTwoCows "F" :=
  List.filter_eq_self.mpr (by decide)

theorem dbTwoCows_liters : litersSeries (farmJoin dbTwoCows "F") = [(202401, 45 / 2)] := by
  with_unfolding_all decide

theorem dbTwoCows_sessions : farmSessionSeries (farmJoin dbTwoCows "F") = [(202401, 2)] := by
  decide

theorem dbTwoCows_round : roundLiters [(202401, 45 / 2)] = [(202401, 22)] := by
  with_unfolding_all decide

theorem dbTwoCows_trend :
    (farm_yield_summary dbTwoCows (Date.ord ⟨2024, 6, 1⟩) "F").df_12mo =
      [{ month := 202401, liters := 22, sessions := 2 }] := by
  show mergeTrend
      (roundLiters (litersSeries ((farmJoin dbTwoCows "F").filter
        (inWindow (Date.ord ⟨2024, 6, 1⟩ - 365)))))
      (farmSessionSeries ((farmJoin dbTwoCows "F").filter
        (inWindow (Date.ord ⟨2024, 6, 1⟩ - 365)))) =
    [{ month := 202401, liters := 22, sessions := 2 }]
  rw [dbTwoCows_win, dbTwoCows_liters, dbTwoCows_sessions, dbTwoCows_round]
  decide

/-- C4 counterexample: on the spec's own example snapshot the 2024-01 trend
    bucket holds 22 liters, not the claimed 23 — pandas Series.round rounds
    the tied sum 22.5 to the even integer 22. -/
theorem c4_trend_example_refuted :
    (farm_yield_summary dbTwoCows (Date.ord ⟨2024, 6, 1⟩) "F").df_12mo =
      [{ month := 202401, liters := 22, sessions := 2 }] ∧
    ¬ ∃ row ∈ (farm_yield_summary dbTwoCows (Date.ord ⟨2024, 6, 1⟩) "F").df_12mo,
        row.liters = 23 := by
  refine ⟨dbTwoCows_trend, ?_⟩
  rw [dbTwoCows_trend]
  decide

/-- C4 amended: the example farm yields lactation_days = 1, total_liters =
    22.5, and a single 2024-01 bucket with liters = 22 (nearest integer,
    ties to even) and sessions = 2 (distinct animals active that month). -/
theorem c4_trend_example_amended :
    (farm_yield_summary dbTwoCows (Date.ord ⟨2024, 6, 1⟩) "F").lactation_days = 1 ∧
    (farm_yield_summary dbTwoCows (Date.ord ⟨2024, 6, 1⟩) "F").total_liters = 45 / 2 ∧
    (farm_yield_summary dbTwoCows (Date.ord ⟨2024, 6, 1⟩) "F").df_12mo =
      [{ month := 202401, liters := 22, sessions := 2 }] := by
  refine ⟨by decide, ?_, dbTwoCows_trend⟩
  show sumYield (farmJoin dbTwoCows "F") = 45 / 2
  with_unfolding_all decide

/-- C8: a scope with zero yield records yields zeroed and empty aggregates
    throughout: zero total and day counts, empty year breakdown and trend,
    the duration falling back to the zero lactation-day count because the
    MIN/MAX date aggregates are absent, and null per-record stats — with no
    division fault anywhere. -/
theorem c8_empty_scope (db : DB) (today : Nat) (farm tag : String)
    (hf : farmJoin db farm = []) (ha : animalRows db tag = []) :
    farm_yield_summary db today farm =
      { total_liters := 0, lactation_days := 0, df_year := [], df_12mo := [] } ∧
    animal_yield_summary db today tag =
      { total_liters := 0, lactation_days := 0, duration_days := 0,
        df_year := [], df_12mo := [], stats := none } := by
  constructor
  · unfold farm_yield_summary
    rw [hf]
    rfl
  · unfold animal_yield_summary
    rw [ha]
    rfl

/-- Witness for c8_empty_scope on the empty storage snapshot. -/
theorem c8_witness :
    (farmJoin ⟨[], []⟩ "F" = [] ∧ animalRows ⟨[], []⟩ "T" = []) ∧
    farm_yield_summary ⟨[], []⟩ 0 "F" =
      { total_liters := 0, lactation_days := 0, df_year := [], df_12mo := [] } :=
  ⟨⟨rfl, rfl⟩, (c8_empty_scope ⟨[], []⟩ 0 "F" "T" rfl rfl).1⟩

/-- The duration aggregate on a non-empty scope is the inclusive span
    between the earliest and latest record dates. -/
theorem durationDays_of_ne_nil {rows : List MilkRow} (h : rows ≠ []) (days : Nat) :
    durationDays rows days =
      (rows.map (fun r => r.record_date.ord)).max?.getD 0 -
        (rows.map (fun r => r.record_date.ord)).min?.getD 0 + 1 := by
  rw [durationDays]
  have hm : rows.map (fun r => r.record_date.ord) ≠ [] := by
    simpa using h
  cases hmin : (rows.map (fun r => r.record_date.ord)).min? with
  | none => exact absurd (List.min?_eq_none_iff.mp hmin) hm
  | some mn =>
    cases hmax : (rows.map (fun r => r.record_date.ord)).max? with
    | none => exact absurd (List.max?_eq_none_iff.mp hmax) hm
    | some mx => rfl

theorem dbOneCow_rows : animalRows dbOneCow "T" =
    [⟨"T", ⟨2023, 6, 1⟩, 2023, 5⟩, ⟨"T", ⟨2023, 6, 3⟩, 2023, 7⟩] := rfl

theorem dbOneCow_stats :
    (animal_yield_summary dbOneCow (Date.ord ⟨2023, 6, 10⟩) "T").stats =
      some { avg_daily := 6, max_yield := 7, min_yield := 5 } := by
  show animalStats (animalRows dbOneCow "T") =
    some { avg_daily := 6, max_yield := 7, min_yield := 5 }
  rw [dbOneCow_rows]
  with_unfolding_all decide

/-- C9: for every animal with at least one record, duration_days equals the
    inclusive span between its earliest and latest record dates (last minus
    first plus one); on the spec's two-record example this gives
    duration_days = 3, lactation_days = 2, and stats avg 6.0, max 7.0,
    min 5.0. -/
theorem c9_duration_span :
    (∀ (db : DB) (today : Nat) (tag : String), animalRows db tag ≠ [] →
       (animal_yield_summary db today tag).duration_days =
         ((animalRows db tag).map (fun r => r.record_date.ord)).max?.getD 0 -
           ((animalRows db tag).map (fun r => r.record_date.ord)).min?.getD 0 + 1) ∧
    (animal_yield_summary dbOneCow (Date.ord ⟨2023, 6, 10⟩) "T").duration_days = 3 ∧
    (animal_yield_summary dbOneCow (Date.ord ⟨2023, 6, 10⟩) "T").lactation_days = 2 ∧
    (animal_yield_summary dbOneCow (Date.ord ⟨2023, 6, 10⟩) "T").stats =
      some { avg_daily := 6, max_yield := 7, min_yield := 5 } := by
  refine ⟨?_, by decide, by decide, dbOneCow_stats⟩
  intro db today tag hne
  have hd : (animal_yield_summary db today tag).duration_days =
      durationDays (animalRows db tag) (distinctDates (animalRows db tag)) := rfl
  rw [hd, durationDays_of_ne_nil hne]

/-- Witness for c9_duration_span at the example animal. -/
theorem c9_witness :
    animalRows dbOneCow "T" ≠ [] ∧
    (animal_yield_summary dbOneCow 0 "T").duration_days =
      ((animalRows dbOneCow "T").map (fun r => r.record_date.ord)).max?.getD 0 -
        ((animalRows dbOneCow "T").map (fun r => r.record_date.ord)).min?.getD 0 + 1 :=
  ⟨by decide, c9_duration_span.1 dbOneCow 0 "T" (by decide)⟩

/-! Year-breakdown facts: every row of the grouped frame comes from a
    non-empty year group. -/

theorem group_days_pos {rows : List MilkRow} {y : Int}
    (hy : y ∈ (rows.map (fun r => r.record_year)).dedup) :
    1 ≤ distinctDates (rows.filter (fun r => r.record_year == y)) ∧
    ∃ r ∈ rows, r.record_year = y := by
  have hy3 : y ∈ rows.map (fun r => r.record_year) := List.mem_dedup.mp hy
  obtain ⟨r, hr, hre⟩ := List.mem_map.mp hy3
  have hg : r ∈ rows.filter (fun r2 => r2.record_year == y) := by
    rw [List.mem_filter]
    exact ⟨hr, by simp [hre]⟩
  refine ⟨?_, r, hr, hre⟩
  rw [distinctDates]
  have h1 : (rows.filter (fun r2 => r2.record_year == y)).map (fun r2 => r2.record_date) ≠ [] := by
    intro h0
    rw [List.map_eq_nil_iff] at h0
    rw [h0] at hg
    simp at hg
  have h2 := (List.dedup_eq_nil _).not.mpr h1
  have h3 := List.length_pos.mpr h2
  omega

theorem farmYearRows_mem {rows : List MilkRow} {row : FarmYearRow}
    (h : row ∈ farmYearRows rows) :
    1 ≤ row.days ∧ row.avg_daily = roundHE1 (row.liters / (row.days : Rat)) ∧
    ∃ r ∈ rows, r.record_year = row.year := by
  rw [farmYearRows] at h
  obtain ⟨y, hy, hrow⟩ := List.mem_map.mp h
  have hy2 : y ∈ (rows.map (fun r => r.record_year)).dedup :=
    (List.perm_insertionSort _ _).mem_iff.mp hy
  obtain ⟨hpos, r, hr, hre⟩ := group_days_pos hy2
  subst hrow
  exact ⟨hpos, rfl, r, hr, hre⟩

theorem animalYearRows_mem {rows : List MilkRow} {row : AnimalYearRow}
    (h : row ∈ animalYearRows rows) :
    1 ≤ row.days ∧ row.avg_daily = roundHE1 (row.liters / (row.days : Rat)) ∧
    ∃ r ∈ rows, r.record_year = row.year := by
  rw [animalYearRows] at h
  obtain ⟨y, hy, hrow⟩ := List.mem_map.mp h
  have hy2 : y ∈ (rows.map (fun r => r.record_year)).dedup :=
    (List.perm_insertionSort _ _).mem_iff.mp hy
  obtain ⟨hpos, r, hr, hre⟩ := group_days_pos hy2
  subst hrow
  exact ⟨hpos, rfl, r, hr, hre⟩

/-- C5: every year_breakdown entry of both scopes has avg_daily equal to
    round(liters / days, 1), and a year appears only when at least one of
    its records exists, so days is at least 1 and the division never
    divides by zero. -/
theorem c5_year_breakdown_avg (db : DB) (today : Nat) (farm tag : String) :
    (∀ row ∈ (farm_yield_summary db today farm).df_year,
       1 ≤ row.days ∧ row.avg_daily = roundHE1 (row.liters / (row.days : Rat)) ∧
       ∃ r ∈ farmJoin db farm, r.record_year = row.year) ∧
    (∀ row ∈ (animal_yield_summary db today tag).df_year,
       1 ≤ row.days ∧ row.avg_daily = roundHE1 (row.liters / (row.days : Rat)) ∧
       ∃ r ∈ animalRows db tag, r.record_year = row.year) :=
  ⟨fun _ h => farmYearRows_mem h, fun _ h => animalYearRows_mem h⟩

theorem dbOneCow_year :
    (animal_yield_summary dbOneCow 0 "T").df_year =
      [{ year := 2023, liters := 12, days := 2, avg_daily := 6 }] := by
  show animalYearRows (animalRows dbOneCow "T") =
    [{ year := 2023, liters := 12, days := 2, avg_daily := 6 }]
  rw [dbOneCow_rows]
  with_unfolding_all decide

/-- Witness for c5_year_breakdown_avg at the example animal's 2023 row. -/
theorem c5_witness :
    ({ year := 2023, liters := 12, days := 2, avg_daily := 6 } : AnimalYearRow) ∈
      (animal_yield_summary dbOneCow 0 "T").df_year ∧
    (1 ≤ ({ year := 2023, liters := 12, days := 2, avg_daily := 6 } : AnimalYearRow).days ∧
     ({ year := 2023, liters := 12, days := 2, avg_daily := 6 } : AnimalYearRow).avg_daily =
       roundHE1 (({ year := 2023, liters := 12, days := 2, avg_daily := 6 } : AnimalYearRow).liters /
         (({ year := 2023, liters := 12, days := 2, avg_daily := 6 } : AnimalYearRow).days : Rat)) ∧
     ∃ r ∈ animalRows dbOneCow "T",
       r.record_year = ({ year := 2023, liters := 12, days := 2, avg_daily := 6 } : AnimalYearRow).year) :=
  ⟨by rw [dbOneCow_year]; exact List.mem_singleton.mpr rfl,
   (c5_year_breakdown_avg dbOneCow 0 "F" "T").2 _
     (by rw [dbOneCow_year]; exact List.mem_singleton.mpr rfl)⟩

/-! Keys of the monthly series, and the outer-join reading of the merge. -/

theorem litersSeries_keys (rows : List MilkRow) :
    (litersSeries rows).map (fun p => p.1) = monthsOf rows := by
  rw [litersSeries, List.map_map]
  exact List.map_id _

theorem farmSessionSeries_keys (rows : List MilkRow) :
    (farmSessionSeries rows).map (fun p => p.1) = monthsOf rows := by
  rw [farmSessionSeries, List.map_map]
  exact List.map_id _

theorem animalSessionSeries_keys (rows : List MilkRow) :
    (animalSessionSeries rows).map (fun p => p.1) = monthsOf rows := by
  rw [animalSessionSeries, List.map_map]
  exact List.map_id _

theorem roundLiters_keys (ls : List (Nat × Rat)) :
    (roundLiters ls).map (fun p => p.1) = ls.map (fun p => p.1) := by
  rw [roundLiters]
  by_cases h : ls.isEmpty = true
  · rw [if_pos h, List.isEmpty_iff.mp h]
    rfl
  · rw [if_neg h, List.map_map]
    rfl

theorem monthsOf_nodup (rows : List MilkRow) : (monthsOf rows).Nodup :=
  (List.perm_insertionSort _ _).nodup_iff.mpr (List.nodup_dedup _)

/-- Spec-side reading of the trend merge, following the spec's words: a full
    outer join on the month key over the two monthly series, with a missing
    liters or sessions value defaulted to 0. -/
def outerJoin0 (ls : List (Nat × Int)) (ss : List (Nat × Nat)) : List TrendRow :=
  ((ls.map (fun p => p.1)) ++
      ((ss.map (fun p => p.1)).filter (fun k => !(ls.map (fun p => p.1)).contains k))).map
    (fun k => { month := k, liters := (ls.lookup k).getD 0, sessions := (ss.lookup k).getD 0 })

theorem mergeTrend_eq_outerJoin (ls : List (Nat × Int)) (ss : List (Nat × Nat))
    (hnd : (ls.map (fun p => p.1)).Nodup)
    (hk : ss.map (fun p => p.1) = ls.map (fun p => p.1)) :
    mergeTrend ls ss = outerJoin0 ls ss := by
  rw [mergeTrend, outerJoin0]
  by_cases h : ls.isEmpty = true
  · have hls : ls = [] := List.isEmpty_iff.mp h
    subst hls
    have hss : ss = [] := by
      have h2 : ss.map (fun p => p.1) = [] := by simpa using hk
      exact List.map_eq_nil_iff.mp h2
    subst hss
    rfl
  · rw [if_neg h]
    have hfilter : ((ss.map (fun p => p.1)).filter
        (fun k => !(ls.map (fun p => p.1)).contains k)) = [] := by
      rw [List.filter_eq_nil_iff]
      intro k hkmem
      rw [hk] at hkmem
      simp [hkmem]
    rw [hfilter, List.append_nil, List.map_map]
    apply List.map_congr_left
    intro p hp
    have hl : ls.lookup p.1 = some p.2 := lookup_of_mem_nodup hnd hp
    simp only [Function.comp_apply, hl, Option.getD_some]

/-- C6: in both scopes the trailing-12-month trend is exactly the outer join
    on the month key of the (rounded) liters series with the sessions
    series, each missing metric defaulted to 0: every month present in
    either series appears as a row carrying both metrics. -/
theorem c6_trend_outer_join (db : DB) (today : Nat) (farm tag : String) :
    (farm_yield_summary db today farm).df_12mo =
      outerJoin0
        (roundLiters (litersSeries ((farmJoin db farm).filter (inWindow (today - 365)))))
        (farmSessionSeries ((farmJoin db farm).filter (inWindow (today - 365)))) ∧
    (animal_yield_summary db today tag).df_12mo =
      outerJoin0
        (roundLiters (litersSeries ((animalRows db tag).filter (inWindow (today - 365)))))
        (animalSessionSeries ((animalRows db tag).filter (inWindow (today - 365)))) := by
  constructor
  · exact mergeTrend_eq_outerJoin _ _
      (by rw [roundLiters_keys, litersSeries_keys]; exact monthsOf_nodup _)
      (by rw [farmSessionSeries_keys, roundLiters_keys, litersSeries_keys])
  · exact mergeTrend_eq_outerJoin _ _
      (by rw [roundLiters_keys, litersSeries_keys]; exact monthsOf_nodup _)
      (by rw [animalSessionSeries_keys, roundLiters_keys, litersSeries_keys])

/-! The trailing window: out-of-window records contribute nothing, every
    in-window record produces its month bucket, and buckets are ascending. -/

theorem flatMap_filter_comm (p : MilkRow → Bool) (f : MilkRow → List MilkRow)
    (hf : ∀ m x, x ∈ f m → x = m) :
    ∀ ms : List MilkRow, (ms.filter p).flatMap f = (ms.flatMap f).filter p := by
  intro ms
  induction ms with
  | nil => rfl
  | cons m ms ih =>
    rw [List.flatMap_cons, List.filter_append]
    cases hp : p m with
    | true =>
      rw [List.filter_cons_of_pos hp, List.flatMap_cons, ih]
      congr 1
      symm
      rw [List.filter_eq_self]
      intro x hx
      rw [hf m x hx]
      exact hp
    | false =>
      rw [List.filter_cons_of_neg (by simp [hp]), ih]
      have h0 : (f m).filter p = [] := by
        rw [List.filter_eq_nil_iff]
        intro x hx
        rw [hf m x hx, hp]
        simp
      rw [h0, List.nil_append]

theorem farmJoin_prune (db : DB) (today : Nat) (farm : String) :
    farmJoin (pruneWindow db today) farm =
      (farmJoin db farm).filter (inWindow (today - 365)) :=
  flatMap_filter_comm (inWindow (today - 365)) _
    (fun m x hx => by
      obtain ⟨a, _, he⟩ := List.mem_map.mp hx
      exact he.symm)
    db.milk_yield

theorem animalRows_prune (db : DB) (today : Nat) (tag : String) :
    animalRows (pruneWindow db today) tag =
      (animalRows db tag).filter (inWindow (today - 365)) := by
  show (db.milk_yield.filter (inWindow (today - 365))).filter (fun m => m.ear_tag == tag) =
    (db.milk_yield.filter (fun m => m.ear_tag == tag)).filter (inWindow (today - 365))
  rw [List.filter_filter, List.filter_filter]
  apply List.filter_congr
  intro a _
  rw [Bool.and_comm]

theorem filter_self_idem (p : MilkRow → Bool) (l : List MilkRow) :
    (l.filter p).filter p = l.filter p := by
  rw [List.filter_filter]
  apply List.filter_congr
  intro a _
  rw [Bool.and_self]

theorem trend_months (win : List MilkRow) (ss : List (Nat × Nat)) :
    (mergeTrend (roundLiters (litersSeries win)) ss).map (fun t => t.month) = monthsOf win := by
  have hkeys : (roundLiters (litersSeries win)).map (fun p => p.1) = monthsOf win := by
    rw [roundLiters_keys, litersSeries_keys]
  rw [mergeTrend]
  by_cases h : (roundLiters (litersSeries win)).isEmpty = true
  · rw [if_pos h]
    rw [List.isEmpty_iff.mp h] at hkeys
    simpa using hkeys
  · rw [if_neg h, List.map_map]
    exact hkeys

theorem month_mem_trend {win : List MilkRow} {ss : List (Nat × Nat)} {r : MilkRow}
    (hr : r ∈ win) :
    ∃ row ∈ mergeTrend (roundLiters (litersSeries win)) ss,
      row.month = monthKey r.record_date := by
  have h1 : monthKey r.record_date ∈ monthsOf win := by
    rw [monthsOf]
    exact (List.perm_insertionSort _ _).mem_iff.mpr
      (List.mem_dedup.mpr (List.mem_map.mpr ⟨r, hr, rfl⟩))
  rw [← trend_months win ss] at h1
  obtain ⟨row, hrow, he⟩ := List.mem_map.mp h1
  exact ⟨row, hrow, he⟩

theorem trend_month_src {win : List MilkRow} {ss : List (Nat × Nat)} {row : TrendRow}
    (h : row ∈ mergeTrend (roundLiters (litersSeries win)) ss) :
    ∃ r ∈ win, monthKey r.record_date = row.month := by
  have h1 : row.month ∈ monthsOf win := by
    rw [← trend_months win ss]
    exact List.mem_map.mpr ⟨row, h, rfl⟩
  rw [monthsOf] at h1
  exact List.mem_map.mp (List.mem_dedup.mp ((List.perm_insertionSort _ _).mem_iff.mp h1))

theorem monthsOf_sorted (rows : List MilkRow) : List.Pairwise (· < ·) (monthsOf rows) := by
  have hs : List.Pairwise (fun a b : Nat => a ≤ b) (monthsOf rows) :=
    List.sorted_insertionSort _ _
  have hn : List.Pairwise (fun a b : Nat => a ≠ b) (monthsOf rows) := monthsOf_nodup rows
  exact (hs.and hn).imp (fun h => Nat.lt_of_le_of_ne h.1 h.2)

theorem trend_sorted (win : List MilkRow) (ss : List (Nat × Nat)) :
    List.Pairwise (· < ·)
      ((mergeTrend (roundLiters (litersSeries win)) ss).map (fun t => t.month)) := by
  rw [trend_months]
  exact monthsOf_sorted win

theorem farm_trend_congr {w1 w2 : List MilkRow} (h : w1 = w2) :
    mergeTrend (roundLiters (litersSeries w1)) (farmSessionSeries w1) =
      mergeTrend (roundLiters (litersSeries w2)) (farmSessionSeries w2) := by
  rw [h]

theorem animal_trend_congr {w1 w2 : List MilkRow} (h : w1 = w2) :
    mergeTrend (roundLiters (litersSeries w1)) (animalSessionSeries w1) =
      mergeTrend (roundLiters (litersSeries w2)) (animalSessionSeries w2) := by
  rw [h]

/-- C7: for both scopes, deleting every record older than 365 days before
    today leaves the trailing-12-month trend unchanged (so such records
    contribute nothing, the window being inclusive at the 365-day
    boundary), every in-window record has its calendar month bucket
    present, every bucket month comes from at least one in-window record
    (no zero-filled empty months), and the bucket months are strictly
    ascending. -/
theorem c7_trend_window (db : DB) (today : Nat) (farm tag : String) :
    ((farm_yield_summary (pruneWindow db today) today farm).df_12mo =
       (farm_yield_summary db today farm).df_12mo) ∧
    ((animal_yield_summary (pruneWindow db today) today tag).df_12mo =
       (animal_yield_summary db today tag).df_12mo) ∧
    (∀ r ∈ farmJoin db farm, today - 365 ≤ r.record_date.ord →
       ∃ row ∈ (farm_yield_summary db today farm).df_12mo,
         row.month = monthKey r.record_date) ∧
    (∀ row ∈ (farm_yield_summary db today farm).df_12mo,
       ∃ r ∈ farmJoin db farm, today - 365 ≤ r.record_date.ord ∧
         monthKey r.record_date = row.month) ∧
    List.Pairwise (· < ·)
      ((farm_yield_summary db today farm).df_12mo.map (fun t => t.month)) ∧
    (∀ r ∈ animalRows db tag, today - 365 ≤ r.record_date.ord →
       ∃ row ∈ (animal_yield_summary db today tag).df_12mo,
         row.month = monthKey r.record_date) ∧
    (∀ row ∈ (animal_yield_summary db today tag).df_12mo,
       ∃ r ∈ animalRows db tag, today - 365 ≤ r.record_date.ord ∧
         monthKey r.record_date = row.month) ∧
    List.Pairwise (· < ·)
      ((animal_yield_summary db today tag).df_12mo.map (fun t => t.month)) := by
  have hfw : (farmJoin (pruneWindow db today) farm).filter (inWindow (today - 365)) =
      (farmJoin db farm).filter (inWindow (today - 365)) := by
    rw [farmJoin_prune, filter_self_idem]
  have haw : (animalRows (pruneWindow db today) tag).filter (inWindow (today - 365)) =
      (animalRows db tag).filter (inWindow (today - 365)) := by
    rw [animalRows_prune, filter_self_idem]
  refine ⟨farm_trend_congr hfw, animal_trend_congr haw, ?_, ?_, trend_sorted _ _,
    ?_, ?_, trend_sorted _ _⟩
  · intro r hr hb
    exact month_mem_trend (List.mem_filter.mpr ⟨hr, by simpa [inWindow] using hb⟩)
  · intro row hrow
    obtain ⟨r, hr, he⟩ := trend_month_src hrow
    have h2 := List.mem_filter.mp hr
    exact ⟨r, h2.1, by simpa [inWindow] using h2.2, he⟩
  · intro r hr hb
    exact month_mem_trend (List.mem_filter.mpr ⟨hr, by simpa [inWindow] using hb⟩)
  · intro row hrow
    obtain ⟨r, hr, he⟩ := trend_month_src hrow
    have h2 := List.mem_filter.mp hr
    exact ⟨r, h2.1, by simpa [inWindow] using h2.2, he⟩

/-- Witness for c7_trend_window: the example record dated 2024-01-15 is in
    the window anchored at 2024-06-01 and produces the 2024-01 bucket. -/
theorem c7_witness :
    ((⟨"A1", ⟨2024, 1, 15⟩, 2024, 10⟩ : MilkRow) ∈ farmJoin dbTwoCows "F" ∧
     Date.ord ⟨2024, 6, 1⟩ - 365 ≤ (Date.ord ⟨2024, 1, 15⟩ : Nat)) ∧
    ∃ row ∈ (farm_yield_summary dbTwoCows (Date.ord ⟨2024, 6, 1⟩) "F").df_12mo,
      row.month = monthKey ⟨2024, 1, 15⟩ :=
  ⟨⟨by decide, by decide⟩,
   (c7_trend_window dbTwoCows (Date.ord ⟨2024, 6, 1⟩) "F" "T").2.2.1
     ⟨"A1", ⟨2024, 1, 15⟩, 2024, 10⟩ (by decide) (by decide)⟩

end Milking
